import Mathlib

/-!
Verification of the sqlite-lib core specification: a shallow embedding of
the query compiler/builder, connection manager, migration engine, error
classifier, notification bus and the Vue injection composable, with
theorems settling the specification's claims.
-/

namespace SqliteLib

/-! ## Query builder: data model -/

/-- A scalar SQL value that can be bound to a placeholder. -/
inductive SQLValue where
  | str (v : String)
  | int (v : Int)
  | bool (v : Bool)
  | null
deriving DecidableEq, Repr

/-- Modelled from the spec: the scalar comparison operators of the builder
(`=`, `!=`, `>`, `>=`, `<`, `<=`, `LIKE`); each renders one placeholder. -/
inductive ScalarOp where
  | eq | ne | gt | ge | lt | le | like
deriving DecidableEq, Repr

/-- SQL text of a scalar operator. -/
def ScalarOp.render : ScalarOp → String
  | .eq => "="
  | .ne => "!="
  | .gt => ">"
  | .ge => ">="
  | .lt => "<"
  | .le => "<="
  | .like => "LIKE"

/-- Modelled from the spec: a recorded `.where()` condition — either a scalar
operator with one value, or an `IN` condition with a list of values. -/
inductive WhereCond where
  | scalar (column : String) (op : ScalarOp) (value : SQLValue)
  | inList (column : String) (values : List SQLValue)
deriving DecidableEq, Repr

/-- The column a condition constrains. -/
def WhereCond.column : WhereCond → String
  | .scalar c _ _ => c
  | .inList c _ => c

/-- Direction of an ORDER BY term. -/
inductive Direction where
  | asc | desc
deriving DecidableEq, Repr

/-- SQL text of a direction. -/
def Direction.render : Direction → String
  | .asc => "ASC"
  | .desc => "DESC"

/-- Modelled from the spec: the immutable accumulated builder state
{table, selectedColumns?, whereClauses, orderBy, limit?, skip?}. -/
structure QueryState where
  table : String
  selectedColumns : Option (List String)
  whereClauses : List WhereCond
  orderBys : List (String × Direction)
  limitN : Option Nat
  skipN : Option Nat
deriving DecidableEq, Repr

/-- Modelled from the spec: `db.query(tableName)` starts a fresh chain. -/
def query (t : String) : QueryState :=
  ⟨t, none, [], [], none, none⟩

/-- Modelled from the spec: `.select(columns...)` — last call wins. -/
def QueryState.select (q : QueryState) (cols : List String) : QueryState :=
  { q with selectedColumns := some cols }

/-- Modelled from the spec: `.where(column, operator, value)` appends the
condition to the recorded list and returns a new state. -/
def QueryState.whereCond (q : QueryState) (c : WhereCond) : QueryState :=
  { q with whereClauses := q.whereClauses ++ [c] }

/-- Modelled from the spec: `.orderBy(column, direction)` — multiple calls
accumulate. -/
def QueryState.orderBy (q : QueryState) (col : String) (d : Direction) : QueryState :=
  { q with orderBys := q.orderBys ++ [(col, d)] }

/-- Modelled from the spec: `.limit(n)`. -/
def QueryState.limit (q : QueryState) (n : Nat) : QueryState :=
  { q with limitN := some n }

/-- Modelled from the spec: `.skip(n)`. -/
def QueryState.skip (q : QueryState) (n : Nat) : QueryState :=
  { q with skipN := some n }

/-! ## Query builder: compilation -/

/-- Join a list of fragments with a separator. -/
def joinSep (sep : String) : List String → String
  | [] => ""
  | [x] => x
  | x :: y :: xs => x ++ sep ++ joinSep sep (y :: xs)

/-- Modelled from the spec: rendering of one condition —
`<column> <operator> ?` for scalar operators, and for `IN` a parenthesised
list with one placeholder per element. -/
def WhereCond.render : WhereCond → String
  | .scalar c op _ => c ++ " " ++ op.render ++ " ?"
  | .inList c vs => c ++ " IN (" ++ joinSep ", " (vs.map fun _ => "?") ++ ")"

/-- Modelled from the spec: the values a condition contributes to the
positional parameter list, in element order. -/
def WhereCond.params : WhereCond → List SQLValue
  | .scalar _ _ v => [v]
  | .inList _ vs => vs

/-- Modelled from the spec: the WHERE clause joins the recorded conditions
with AND in the order they were added (empty when there are none). -/
def whereSQL (cs : List WhereCond) : String :=
  match cs with
  | [] => ""
  | _ => " WHERE " ++ joinSep " AND " (cs.map WhereCond.render)

/-- Parameters contributed by a condition list, by the same left-to-right
traversal that builds the WHERE text. -/
def condParams : List WhereCond → List SQLValue
  | [] => []
  | c :: cs => c.params ++ condParams cs

/-- Modelled from the spec: the SELECT clause — selected columns when
`select()` was called, `*` otherwise. -/
def selectSQL : Option (List String) → String
  | none => "*"
  | some cols => joinSep ", " cols

/-- Modelled from the spec: the ORDER BY clause in call order. -/
def orderBySQL (os : List (String × Direction)) : String :=
  match os with
  | [] => ""
  | _ => " ORDER BY " ++ joinSep ", " (os.map fun o => o.1 ++ " " ++ o.2.render)

/-- Modelled from the spec: LIMIT, appended when present. -/
def limitSQL : Option Nat → String
  | none => ""
  | some n => " LIMIT " ++ toString n

/-- Modelled from the spec: OFFSET (from `skip`), appended when present. -/
def offsetSQL : Option Nat → String
  | none => ""
  | some n => " OFFSET " ++ toString n

/-- Modelled from the spec: full compilation of the accumulated state in the
fixed clause order SELECT, FROM, WHERE, ORDER BY, LIMIT, OFFSET. -/
def compileSQL (q : QueryState) : String :=
  "SELECT " ++ selectSQL q.selectedColumns ++ " FROM " ++ q.table ++
    whereSQL q.whereClauses ++ orderBySQL q.orderBys ++
    limitSQL q.limitN ++ offsetSQL q.skipN

/-- Modelled from the spec: the positional bound-parameter list, built by the
same traversal as the WHERE text. -/
def compileParams (q : QueryState) : List SQLValue :=
  condParams q.whereClauses

/-- Number of `?` placeholders appearing in a SQL fragment. -/
def countQMarks (s : String) : Nat :=
  s.toList.count '?'

/-! ## Migration engine -/

/-- A versioned schema-change statement {version, statement}. -/
structure Migration where
  version : Nat
  sql : String
deriving DecidableEq, Repr

/-- Insert a migration into a version-sorted list, keeping it sorted. -/
def insertSorted (m : Migration) : List Migration → List Migration
  | [] => [m]
  | x :: xs => if m.version ≤ x.version then m :: x :: xs else x :: insertSorted m xs

/-- Modelled from the spec: `apply` sorts migrations ascending by version
(input order is not trusted). -/
def sortByVersion : List Migration → List Migration
  | [] => []
  | m :: ms => insertSorted m (sortByVersion ms)

/-- Result of a migration run: the versions executed (in execution order)
and the resulting record of applied versions. -/
structure ApplyResult where
  executed : List Nat
  applied : List Nat
deriving DecidableEq, Repr

/-- Modelled from the spec: walk the sorted migrations; each one whose
version is not already recorded as applied is executed and then its version
is recorded. -/
def runMigs : List Migration → List Nat → ApplyResult
  | [], applied => ⟨[], applied⟩
  | m :: rest, applied =>
    if m.version ∈ applied then runMigs rest applied
    else
      let r := runMigs rest (applied ++ [m.version])
      ⟨m.version :: r.executed, r.applied⟩

/-- Modelled from the spec: `apply(handle, migrations)` in the success-only
case — sort ascending by version, then execute-and-record the ones not yet
applied. -/
def applyMigs (applied : List Nat) (migs : List Migration) : ApplyResult :=
  runMigs (sortByVersion migs) applied

/-- Result of a fallible migration run: executed versions, the record of
applied versions, and the version whose statement failed (if any). -/
structure ApplyEResult where
  executed : List Nat
  applied : List Nat
  failedAt : Option Nat
deriving DecidableEq, Repr

/-- Modelled from the spec: the fallible migration walk — execute and record
are one unit, so a failing statement leaves its version unrecorded and aborts
before any later migration runs. `fails` is the engine's verdict on each
statement. -/
def runMigsE (fails : Migration → Bool) : List Migration → List Nat → ApplyEResult
  | [], applied => ⟨[], applied, none⟩
  | m :: rest, applied =>
    if m.version ∈ applied then runMigsE fails rest applied
    else if fails m then ⟨[], applied, some m.version⟩
    else
      let r := runMigsE fails rest (applied ++ [m.version])
      ⟨m.version :: r.executed, r.applied, r.failedAt⟩

/-- Modelled from the spec: fallible `apply(handle, migrations)` — sort
ascending, then execute-and-record with abort on first failure. -/
def applyMigsE (fails : Migration → Bool) (applied : List Nat)
    (migs : List Migration) : ApplyEResult :=
  runMigsE fails (sortByVersion migs) applied

/-! ## Connection manager -/

/-- Modelled from the spec: the manager's state machine
Uninitialized → Initializing → Ready, or Initializing → Failed (terminal).
The `Nat` is the identity of the single shared initialization promise. -/
inductive MgrState where
  | uninitialized
  | initializing (pid : Nat)
  | ready (pid : Nat)
  | failed (pid : Nat)
deriving DecidableEq, Repr

/-- Connection manager instrumented with counters for the open requests sent
and the migration runs invoked. -/
structure Mgr where
  state : MgrState
  openCount : Nat
  migrationRuns : Nat
deriving DecidableEq, Repr

/-- A freshly created client's manager. -/
def Mgr.fresh : Mgr := ⟨.uninitialized, 0, 0⟩

/-- Modelled from the spec: `getHandle()` — the first caller transitions the
manager to Initializing and creates the single shared promise (id 0), which
performs one open request and one migration run; every caller arriving in any
later state receives the same shared promise and triggers nothing. -/
def Mgr.getHandle (m : Mgr) : Mgr × Nat :=
  match m.state with
  | .uninitialized => (⟨.initializing 0, m.openCount + 1, m.migrationRuns + 1⟩, 0)
  | .initializing p => (m, p)
  | .ready p => (m, p)
  | .failed p => (m, p)

/-- `n` sequential `getHandle()` calls (the interleaving of `n` concurrent
callers on the single logical thread), collecting the promise each receives. -/
def Mgr.callN : Nat → Mgr → Mgr × List Nat
  | 0, m => (m, [])
  | n + 1, m =>
    let r := m.getHandle
    let s := Mgr.callN n r.1
    (s.1, r.2 :: s.2)

/-- Modelled from the spec: resolution of the shared initialization promise —
success moves Initializing to Ready, failure to the terminal Failed state. -/
def Mgr.resolveInit (m : Mgr) (ok : Bool) : Mgr :=
  match m.state with
  | .initializing p =>
      if ok then { m with state := .ready p } else { m with state := .failed p }
  | _ => m

/-- Modelled from the spec: first use of a fresh client — `getHandle` sends
the open, runs the migrations on a fresh database, and resolves the shared
promise with the outcome. -/
def initClient (fails : Migration → Bool) (migs : List Migration) :
    Mgr × ApplyEResult :=
  let m1 := (Mgr.fresh.getHandle).1
  let r := applyMigsE fails [] migs
  (m1.resolveInit r.failedAt.isNone, r)

/-! ## Error taxonomy and classifier -/

/-- The JS error classes of the package, as they appear in the tests:
`ValidationError` and `ConstraintError` both extend `SQLiteError`, which
extends the built-in `Error`. -/
inductive ErrClass where
  | jsError | sqliteError | validationError | constraintError
deriving DecidableEq, Repr, BEq

/-- The prototype chain of a class: itself followed by its ancestors. -/
def ancestors : ErrClass → List ErrClass
  | .jsError => [.jsError]
  | .sqliteError => [.sqliteError, .jsError]
  | .validationError => [.validationError, .sqliteError, .jsError]
  | .constraintError => [.constraintError, .sqliteError, .jsError]

/-- The `instanceof` check: a value of class `c` is an instance of `target`
when `target` lies on `c`'s prototype chain. -/
def instanceOfB (c target : ErrClass) : Bool :=
  (ancestors c).contains target

/-- One entry of a Validation error's issues list: the violated field's name
and the constraint description. -/
structure Issue where
  path : String
  message : String
deriving DecidableEq, Repr

/-- The typed error taxonomy: Validation (local, multi-issue, with a
representative field), Constraint (engine-reported, categorized), and SQL
(engine-reported fallback carrying the statement text and message). -/
inductive TypedError where
  | validation (field : String) (issues : List Issue)
  | constraint (category : String) (message : String)
  | sql (sqlText : String) (message : String)
deriving DecidableEq, Repr

/-- The JS class a typed error is constructed with. -/
def TypedError.errClass : TypedError → ErrClass
  | .validation _ _ => .validationError
  | .constraint _ _ => .constraintError
  | .sql _ _ => .sqliteError

/-- The `code` property of a typed error, as asserted by the tests. -/
def TypedError.code : TypedError → String
  | .validation _ _ => "VALIDATION_ERROR"
  | .constraint _ _ => "CONSTRAINT_ERROR"
  | .sql _ _ => "SQL_ERROR"

/-- Whether `pat` occurs as a contiguous subsequence of `l`. -/
def containsSeq (pat : List Char) : List Char → Bool
  | [] => pat.isEmpty
  | c :: rest => pat.isPrefixOf (c :: rest) || containsSeq pat rest

/-- Whether the pattern string occurs anywhere in `s`. -/
def containsSub (s pat : String) : Bool :=
  containsSeq pat.toList s.toList

/-- The known constraint-violation patterns the classifier recognizes. -/
def constraintPatterns : List String :=
  ["UNIQUE", "FOREIGN KEY", "NOT NULL"]

/-- Whether an engine message matches any known constraint pattern. -/
def matchesConstraint (msg : String) : Bool :=
  containsSub msg "UNIQUE" || containsSub msg "FOREIGN KEY" ||
    containsSub msg "NOT NULL"

/-- Modelled from the spec: the classifier for engine error responses — a
Constraint error with the matched category when the message matches a known
pattern, otherwise the SQL fallback carrying the statement and the message
verbatim. -/
def classifyEngineError (sqlText msg : String) : TypedError :=
  if containsSub msg "UNIQUE" then .constraint "UNIQUE" msg
  else if containsSub msg "FOREIGN KEY" then .constraint "FOREIGN KEY" msg
  else if containsSub msg "NOT NULL" then .constraint "NOT NULL" msg
  else .sql sqlText msg

/-! ## Schema validation and the mutation pipeline -/

/-- One field of a table's schema descriptor: its name, the runtime
constraint check, and the constraint description used in issue messages. -/
structure FieldSpec where
  name : String
  check : SQLValue → Bool
  message : String

/-- The value supplied for a field, `null` when absent from the map. -/
def lookupField (row : List (String × SQLValue)) (name : String) : SQLValue :=
  match row.find? (fun p => p.1 == name) with
  | none => .null
  | some p => p.2

/-- Modelled from the spec: validation of a value map against a table's
schema — every field failing its declared constraint collects into the
issues list (path = field name, message = constraint description), with no
fail-fast. -/
def validateRow (schema : List FieldSpec) (row : List (String × SQLValue)) :
    List Issue :=
  (schema.filter fun f => !(f.check (lookupField row f.name))).map
    fun f => ⟨f.name, f.message⟩

/-- A statement sent to the engine: SQL text plus positional binds. -/
structure EngineCall where
  sqlText : String
  binds : List SQLValue
deriving DecidableEq, Repr

/-- Modelled from the spec: compiling an insert mutation — the value map is
validated against the schema before any SQL is produced; a non-empty issues
list yields exactly one Validation error whose representative field is the
first violated field, and no engine call. -/
def insertValues (schema : List FieldSpec) (table : String)
    (row : List (String × SQLValue)) : Except TypedError EngineCall :=
  match validateRow schema row with
  | [] =>
      .ok ⟨"INSERT INTO " ++ table ++ " (" ++ joinSep ", " (row.map Prod.fst) ++
        ") VALUES (" ++ joinSep ", " (row.map fun _ => "?") ++ ")",
        row.map Prod.snd⟩
  | i :: is => .error (.validation i.path (i :: is))

/-- The statements a mutation attempt actually sends to the engine. -/
def sentCalls : Except TypedError EngineCall → List EngineCall
  | .ok c => [c]
  | .error _ => []

/-! ## Notification bus -/

/-- The subscriber registry: (table, callback identity) pairs in registration
order. -/
structure Bus where
  subs : List (String × Nat)
deriving DecidableEq, Repr

/-- `subscribe(table, callback)` appends the registration. -/
def Bus.subscribe (b : Bus) (t : String) (cb : Nat) : Bus :=
  ⟨b.subs ++ [(t, cb)]⟩

/-- The unsubscribe capability returned by `subscribe`: removes the
registration of `cb` under `t`. -/
def Bus.unsubscribe (b : Bus) (t : String) (cb : Nat) : Bus :=
  ⟨b.subs.filter fun s => !(s.1 == t && s.2 == cb)⟩

/-- What a callback does when invoked: whether it throws, and which
registrations it removes (mid-dispatch unsubscription). -/
structure CbEffect where
  throws : Bool
  unsubs : List (String × Nat)

/-- Apply a callback's unsubscriptions to the registry. -/
def applyUnsubs (b : Bus) (us : List (String × Nat)) : Bus :=
  us.foldl (fun b u => b.unsubscribe u.1 u.2) b

/-- The callbacks currently registered for a table, in registration order. -/
def Bus.registeredFor (b : Bus) (t : String) : List Nat :=
  (b.subs.filter fun s => s.1 == t).map Prod.snd

/-- Modelled from the spec: the dispatch loop of `notify` — walk the
snapshot of callbacks registered for the table; invoke each one still
registered when reached (isolated, so a throwing callback never stops the
loop) and apply any unsubscriptions it performs; an entry unsubscribed
earlier in the pass is skipped. -/
def notifyGo (beh : Nat → CbEffect) (t : String) :
    List Nat → Bus → List Nat × Bus
  | [], b => ([], b)
  | cb :: rest, b =>
    if (t, cb) ∈ b.subs then
      let b1 := applyUnsubs b (beh cb).unsubs
      let r := notifyGo beh t rest b1
      (cb :: r.1, r.2)
    else
      notifyGo beh t rest b

/-- Modelled from the spec: `notify(table)` synchronously invokes the
callbacks registered for `table`, in registration order, returning the
identities invoked and the registry after the pass. -/
def Bus.notify (b : Bus) (beh : Nat → CbEffect) (t : String) :
    List Nat × Bus :=
  notifyGo beh t (b.registeredFor t) b

/-! ## Vue injection composable -/

/-- The injection key under which the plugin provides the client promise. -/
def SQLITE_CLIENT_KEY : String := "SQLITE_CLIENT"

/-- Vue's `inject`: look up the value a provider supplied under a key. -/
def inject {α : Type} (env : String → Option α) (key : String) : Option α :=
  env key

/-- `useSQLiteClientAsync()`: injects the client promise under
SQLITE_CLIENT_KEY and throws "SQLite plugin not installed" when no provider
supplied one, otherwise returns the injected promise unchanged. -/
def useSQLiteClientAsync {α : Type} (env : String → Option α) :
    Except String α :=
  match inject env SQLITE_CLIENT_KEY with
  | none => .error "SQLite plugin not installed"
  | some p => .ok p

/-! ## Concrete fixtures used by the example parts of the claims -/

/-- A chain mixing scalar and IN conditions:
`query("t").where("a","=",1).where("s","IN",["x","y","z"]).where("b",">",5)`. -/
def mixedChain : QueryState :=
  (((query "t").whereCond (.scalar "a" .eq (.int 1))).whereCond
    (.inList "s" [.str "x", .str "y", .str "z"])).whereCond
    (.scalar "b" .gt (.int 5))

/-- The users schema of the error-handling tests: name at least 3 characters,
email must look like an email, age between 0 and 150. -/
def usersSchema : List FieldSpec :=
  [⟨"name", fun v => match v with | .str s => decide (3 ≤ s.length) | _ => false,
    "String must contain at least 3 characters"⟩,
   ⟨"email", fun v => match v with | .str s => containsSub s "@" | _ => false,
    "Invalid email"⟩,
   ⟨"age", fun v => match v with | .int n => decide (0 ≤ n ∧ n ≤ 150) | _ => false,
    "Number must be at most 150"⟩]

/-- The row of the validation test: name too short, email invalid, age too
large — three violated fields at once. -/
def badRow : List (String × SQLValue) :=
  [("name", .str "ab"), ("email", .str "invalid-email"), ("age", .int 200)]

/-- Migrations supplied out of version order, as in the spec's example. -/
def outOfOrderMigs : List Migration :=
  [⟨3, "create c"⟩, ⟨1, "create a"⟩, ⟨2, "create b"⟩]

/-- A registry with two subscribers on "todos" and one on "other". -/
def demoBus : Bus :=
  ⟨[("todos", 1), ("todos", 2), ("other", 3)]⟩

/-- Behaviors for the dispatch example: callback 1 throws and unsubscribes
callback 2 from "todos" mid-pass; the others do nothing. -/
def demoBeh : Nat → CbEffect :=
  fun i => if i = 1 then ⟨true, [("todos", 2)]⟩ else ⟨false, []⟩

/-! ## Helper lemmas: placeholder counting -/

theorem countQMarks_append (a b : String) :
    countQMarks (a ++ b) = countQMarks a + countQMarks b := by
  simp [countQMarks, String.toList, List.count_append]

theorem countQMarks_op (op : ScalarOp) : countQMarks op.render = 0 := by
  cases op <;> decide

theorem countQMarks_joinSep (sep : String) (hsep : countQMarks sep = 0) :
    ∀ l : List String, countQMarks (joinSep sep l) = (l.map countQMarks).sum
  | [] => by simp [joinSep, countQMarks]
  | [x] => by simp [joinSep]
  | x :: y :: xs => by
    have ih := countQMarks_joinSep sep hsep (y :: xs)
    simp [joinSep, countQMarks_append, hsep] at ih ⊢
    omega

theorem countQMarks_render (c : WhereCond) (h : countQMarks c.column = 0) :
    countQMarks c.render = c.params.length := by
  cases c with
  | scalar col op v =>
    simp [WhereCond.column] at h
    simp [WhereCond.render, WhereCond.params, countQMarks_append, countQMarks_op, h]
    decide
  | inList col vs =>
    simp [WhereCond.column] at h
    rw [WhereCond.render]
    simp [WhereCond.params, countQMarks_append, h,
      countQMarks_joinSep ", " (by decide), List.map_map]
    have h1 : countQMarks " IN (" = 0 := by decide
    have h2 : countQMarks "?" = 1 := by decide
    have h3 : countQMarks ")" = 0 := by decide
    rw [h1, h2, h3]
    omega

theorem condParams_length (cs : List WhereCond)
    (h : ∀ c ∈ cs, countQMarks c.column = 0) :
    (cs.map (countQMarks ∘ WhereCond.render)).sum = (condParams cs).length := by
  induction cs with
  | nil => rfl
  | cons c cs ih =>
    simp only [List.map_cons, List.sum_cons, condParams, List.length_append,
      Function.comp_apply]
    rw [countQMarks_render c (h c (by simp)), ih fun x hx => h x (by simp [hx])]

theorem countQMarks_whereSQL (cs : List WhereCond)
    (h : ∀ c ∈ cs, countQMarks c.column = 0) :
    countQMarks (whereSQL cs) = (condParams cs).length := by
  cases cs with
  | nil => decide
  | cons c cs =>
    rw [show whereSQL (c :: cs) =
      " WHERE " ++ joinSep " AND " ((c :: cs).map WhereCond.render) from rfl]
    rw [countQMarks_append, countQMarks_joinSep " AND " (by decide)]
    rw [List.map_map, condParams_length _ h]
    have h0 : countQMarks " WHERE " = 0 := by decide
    rw [h0]
    omega

/-! ## Claim C1 -/

/-- C1: compiling the accumulated state renders the WHERE clause as the
recorded conditions joined with AND in the order the `.where()` calls were
made, and the positional parameter list is in exactly the left-to-right order
the placeholders appear: the WHERE text carries one placeholder per bound
value, per condition and in total; an IN condition over N values renders N
placeholders and binds the values in element order; and a chain mixing scalar
and IN conditions compiles and binds as expected. -/
theorem c1_where_clause_and_params (q : QueryState)
    (hclean : ∀ c ∈ q.whereClauses, countQMarks c.column = 0) :
    (∀ c, (q.whereCond c).whereClauses = q.whereClauses ++ [c]) ∧
    (q.whereClauses ≠ [] →
      whereSQL q.whereClauses =
        " WHERE " ++ joinSep " AND " (q.whereClauses.map WhereCond.render)) ∧
    countQMarks (whereSQL q.whereClauses) = (compileParams q).length ∧
    (∀ c ∈ q.whereClauses, countQMarks c.render = c.params.length) ∧
    (∀ col vs, countQMarks col = 0 →
      countQMarks (WhereCond.render (.inList col vs)) = vs.length ∧
      (WhereCond.inList col vs).params = vs) ∧
    compileSQL mixedChain = "SELECT * FROM t WHERE a = ? AND s IN (?, ?, ?) AND b > ?" ∧
    compileParams mixedChain = [.int 1, .str "x", .str "y", .str "z", .int 5] := by
  refine ⟨fun c => rfl, ?_, ?_, ?_, ?_, by rfl, by rfl⟩
  · intro h
    rcases hq : q.whereClauses with _ | ⟨c, cs⟩
    · exact absurd hq h
    · rfl
  · exact countQMarks_whereSQL _ hclean
  · exact fun c hc => countQMarks_render c (hclean c hc)
  · intro col vs h
    refine ⟨?_, rfl⟩
    have hr := countQMarks_render (.inList col vs) (by simpa [WhereCond.column] using h)
    simpa [WhereCond.params] using hr

/-- Witness for C1: the mixed chain satisfies the hypothesis and the
placeholder/parameter alignment. -/
theorem c1_where_clause_and_params_witness :
    countQMarks (whereSQL mixedChain.whereClauses) = (compileParams mixedChain).length ∧
    compileSQL mixedChain = "SELECT * FROM t WHERE a = ? AND s IN (?, ?, ?) AND b > ?" := by
  have h := c1_where_clause_and_params mixedChain (by decide)
  exact ⟨h.2.2.1, h.2.2.2.2.2.1⟩

/-! ## Claim C9 -/

/-- C9: every chain method returns a new builder state; deriving the two
continuations `base.where(c2)` and `base.where(c3)` leaves the base state
unchanged in every field, each branch's state is the parent's state with only
its own condition appended, each branch's compiled SQL and parameters are
determined by the base and its own condition alone, and the stored
reusable-query example branches into two independent compiled queries. -/
theorem c9_builder_branch_independence (base : QueryState) (c2 c3 : WhereCond) :
    (base.whereCond c2).whereClauses = base.whereClauses ++ [c2] ∧
    (base.whereCond c3).whereClauses = base.whereClauses ++ [c3] ∧
    (base.whereCond c2).table = base.table ∧
    (base.whereCond c2).selectedColumns = base.selectedColumns ∧
    (base.whereCond c2).orderBys = base.orderBys ∧
    (base.whereCond c2).limitN = base.limitN ∧
    (base.whereCond c2).skipN = base.skipN ∧
    compileSQL (base.whereCond c2) =
      compileSQL { base with whereClauses := base.whereClauses ++ [c2] } ∧
    compileParams (base.whereCond c2) = condParams (base.whereClauses ++ [c2]) ∧
    ((base.whereCond c2).whereCond c3).whereClauses =
      base.whereClauses ++ [c2, c3] ∧
    compileSQL ((query "todos").whereCond (.scalar "completed" .eq (.bool false))) =
      "SELECT * FROM todos WHERE completed = ?" ∧
    compileSQL (((query "todos").whereCond (.scalar "completed" .eq (.bool false))).whereCond
        (.scalar "priority" .eq (.str "high"))) =
      "SELECT * FROM todos WHERE completed = ? AND priority = ?" ∧
    compileSQL (((query "todos").whereCond (.scalar "completed" .eq (.bool false))).whereCond
        (.scalar "title" .like (.str "%urgent%"))) =
      "SELECT * FROM todos WHERE completed = ? AND title LIKE ?" := by
  refine ⟨rfl, rfl, rfl, rfl, rfl, rfl, rfl, rfl, rfl, ?_, by rfl, by rfl, by rfl⟩
  simp [QueryState.whereCond]

/-! ## Claim C2 -/

theorem callN_initializing (n : Nat) (m : Mgr) (p : Nat)
    (h : m.state = .initializing p) :
    Mgr.callN n m = (m, List.replicate n p) := by
  induction n with
  | zero => rfl
  | succ n ih =>
    have hg : m.getHandle = (m, p) := by
      simp [Mgr.getHandle, h]
    simp [Mgr.callN, hg, ih, List.replicate_succ]

/-- C2: any number `n ≥ 1` of `getHandle()` callers arriving before
initialization completes all receive the identical shared promise (id 0),
and the manager sends exactly one open request and invokes the migration run
exactly once, regardless of `n`. -/
theorem c2_shared_init_promise (n : Nat) (h : 1 ≤ n) :
    (Mgr.callN n Mgr.fresh).1.openCount = 1 ∧
    (Mgr.callN n Mgr.fresh).1.migrationRuns = 1 ∧
    (Mgr.callN n Mgr.fresh).2 = List.replicate n 0 := by
  obtain ⟨m, rfl⟩ : ∃ m, n = m + 1 := ⟨n - 1, by omega⟩
  have hg : Mgr.fresh.getHandle = (⟨.initializing 0, 1, 1⟩, 0) := rfl
  have hs := callN_initializing m ⟨.initializing 0, 1, 1⟩ 0 rfl
  simp [Mgr.callN, hg, hs, List.replicate_succ]

/-- Witness for C2: three concurrent first callers send one open and all
receive promise 0. -/
theorem c2_shared_init_promise_witness :
    (Mgr.callN 3 Mgr.fresh).1.openCount = 1 ∧
    (Mgr.callN 3 Mgr.fresh).2 = [0, 0, 0] := by
  have h := c2_shared_init_promise 3 (by decide)
  exact ⟨h.1, by rw [h.2.2]; rfl⟩

/-! ## Helper lemmas: migration sorting and runs -/

theorem mem_insertSorted (m x : Migration) :
    ∀ l : List Migration, (x ∈ insertSorted m l ↔ x = m ∨ x ∈ l)
  | [] => by simp [insertSorted]
  | y :: ys => by
    rw [insertSorted]
    by_cases h : m.version ≤ y.version
    · simp [h]
    · simp only [if_neg h, List.mem_cons, mem_insertSorted m x ys]
      tauto

theorem pairwise_insertSorted (m : Migration) :
    ∀ l : List Migration, l.Pairwise (fun a b => a.version ≤ b.version) →
      (insertSorted m l).Pairwise (fun a b => a.version ≤ b.version)
  | [], _ => by simp [insertSorted]
  | y :: ys, h => by
    rw [insertSorted]
    rcases List.pairwise_cons.mp h with ⟨hy, hys⟩
    by_cases hm : m.version ≤ y.version
    · simp only [if_pos hm]
      refine List.Pairwise.cons ?_ h
      intro b hb
      rcases List.mem_cons.mp hb with rfl | hb
      · exact hm
      · exact le_trans hm (hy b hb)
    · simp only [if_neg hm]
      refine List.Pairwise.cons ?_ (pairwise_insertSorted m ys hys)
      intro b hb
      rcases (mem_insertSorted m b ys).mp hb with rfl | hb
      · exact le_of_not_le hm
      · exact hy b hb

theorem pairwise_sortByVersion :
    ∀ migs : List Migration,
      (sortByVersion migs).Pairwise (fun a b => a.version ≤ b.version)
  | [] => List.Pairwise.nil
  | m :: ms => pairwise_insertSorted m _ (pairwise_sortByVersion ms)

theorem runMigs_applied :
    ∀ (l : List Migration) (ap : List Nat),
      (runMigs l ap).applied = ap ++ (runMigs l ap).executed
  | [], ap => by simp [runMigs]
  | m :: rest, ap => by
    rw [runMigs]
    by_cases h : m.version ∈ ap
    · simp only [if_pos h]
      exact runMigs_applied rest ap
    · simp only [if_neg h]
      have ih := runMigs_applied rest (ap ++ [m.version])
      simp [ih]

theorem runMigs_executed_not_applied :
    ∀ (l : List Migration) (ap : List Nat) (v : Nat),
      v ∈ (runMigs l ap).executed → v ∉ ap
  | [], ap, v => by simp [runMigs]
  | m :: rest, ap, v => by
    rw [runMigs]
    by_cases h : m.version ∈ ap
    · simp only [if_pos h]
      exact runMigs_executed_not_applied rest ap v
    · simp only [if_neg h]
      intro hv
      rcases List.mem_cons.mp hv with rfl | hv
      · exact h
      · have hrec := runMigs_executed_not_applied rest (ap ++ [m.version]) v hv
        intro hva
        exact hrec (List.mem_append_left _ hva)

theorem runMigs_executed_sublist :
    ∀ (l : List Migration) (ap : List Nat),
      (runMigs l ap).executed.Sublist (l.map Migration.version)
  | [], ap => by simp [runMigs]
  | m :: rest, ap => by
    rw [runMigs]
    by_cases h : m.version ∈ ap
    · simp only [if_pos h, List.map_cons]
      exact List.Sublist.cons _ (runMigs_executed_sublist rest ap)
    · simp only [if_neg h, List.map_cons]
      exact List.Sublist.cons₂ _ (runMigs_executed_sublist rest (ap ++ [m.version]))

theorem runMigs_mem_applied :
    ∀ (l : List Migration) (ap : List Nat) (x : Migration), x ∈ l →
      x.version ∈ (runMigs l ap).applied
  | m :: rest, ap, x, hx => by
    rw [runMigs]
    by_cases h : m.version ∈ ap
    · simp only [if_pos h]
      rcases List.mem_cons.mp hx with rfl | hx
      · rw [runMigs_applied]
        exact List.mem_append_left _ h
      · exact runMigs_mem_applied rest ap x hx
    · simp only [if_neg h]
      rcases List.mem_cons.mp hx with rfl | hx
      · show x.version ∈ (runMigs rest (ap ++ [x.version])).applied
        rw [runMigs_applied]
        exact List.mem_append_left _ (by simp)
      · exact runMigs_mem_applied rest (ap ++ [m.version]) x hx

theorem runMigs_all_applied :
    ∀ (l : List Migration) (ap : List Nat),
      (∀ m ∈ l, m.version ∈ ap) → (runMigs l ap).executed = []
  | [], ap, _ => rfl
  | m :: rest, ap, h => by
    rw [runMigs]
    simp only [if_pos (h m (by simp))]
    exact runMigs_all_applied rest ap fun x hx => h x (by simp [hx])

/-! ## Claim C3 -/

/-- C3: `apply` executes migrations in ascending version order regardless of
input order, executes only versions not already recorded as applied, and
re-invoking it afterwards with the same list executes nothing; in particular
versions supplied as [3,1,2] execute as [1,2,3] and a second run executes
none. -/
theorem c3_migrations_sorted_idempotent (ap : List Nat) (migs : List Migration) :
    (applyMigs ap migs).executed.Pairwise (· ≤ ·) ∧
    (∀ v ∈ (applyMigs ap migs).executed, v ∉ ap) ∧
    (applyMigs ((applyMigs ap migs).applied) migs).executed = [] ∧
    (applyMigs [] outOfOrderMigs).executed = [1, 2, 3] ∧
    (applyMigs ((applyMigs [] outOfOrderMigs).applied) outOfOrderMigs).executed = [] := by
  refine ⟨?_, ?_, ?_, by decide, by decide⟩
  · have hs := pairwise_sortByVersion migs
    have hm : (List.map Migration.version (sortByVersion migs)).Pairwise (· ≤ ·) :=
      List.pairwise_map.mpr hs
    exact List.Pairwise.sublist (runMigs_executed_sublist _ _) hm
  · exact fun v hv => runMigs_executed_not_applied _ _ v hv
  · exact runMigs_all_applied _ _ fun m hm => runMigs_mem_applied _ ap m hm

/-- Witness for C3: the out-of-order list applies as 1, 2, 3 and a second
run executes nothing. -/
theorem c3_migrations_sorted_idempotent_witness :
    (applyMigs [] outOfOrderMigs).executed = [1, 2, 3] ∧
    (applyMigs ((applyMigs [] outOfOrderMigs).applied) outOfOrderMigs).executed = [] :=
  ⟨(c3_migrations_sorted_idempotent [] outOfOrderMigs).2.2.2.1,
   (c3_migrations_sorted_idempotent [] outOfOrderMigs).2.2.2.2⟩

/-! ## Helper lemmas: fallible migration runs -/

theorem runMigsE_applied :
    ∀ (f : Migration → Bool) (l : List Migration) (ap : List Nat),
      (runMigsE f l ap).applied = ap ++ (runMigsE f l ap).executed
  | f, [], ap => by simp [runMigsE]
  | f, m :: rest, ap => by
    rw [runMigsE]
    by_cases h : m.version ∈ ap
    · simp only [if_pos h]
      exact runMigsE_applied f rest ap
    · simp only [if_neg h]
      by_cases hf : f m
      · simp [if_pos hf]
      · simp only [if_neg hf]
        have ih := runMigsE_applied f rest (ap ++ [m.version])
        simp [ih]

theorem runMigsE_failed_not_applied :
    ∀ (f : Migration → Bool) (l : List Migration) (ap : List Nat) (v : Nat),
      (runMigsE f l ap).failedAt = some v → v ∉ (runMigsE f l ap).applied
  | f, [], ap, v => by simp [runMigsE]
  | f, m :: rest, ap, v => by
    rw [runMigsE]
    by_cases h : m.version ∈ ap
    · simp only [if_pos h]
      exact runMigsE_failed_not_applied f rest ap v
    · simp only [if_neg h]
      by_cases hf : f m
      · simp only [if_pos hf]
        intro hv
        obtain rfl : m.version = v := Option.some.inj hv
        exact h
      · simp only [if_neg hf]
        exact runMigsE_failed_not_applied f rest (ap ++ [m.version]) v

theorem runMigsE_failedAt_mem :
    ∀ (f : Migration → Bool) (l : List Migration) (ap : List Nat) (v : Nat),
      (runMigsE f l ap).failedAt = some v → v ∈ l.map Migration.version
  | f, [], ap, v => by simp [runMigsE]
  | f, m :: rest, ap, v => by
    rw [runMigsE]
    by_cases h : m.version ∈ ap
    · simp only [if_pos h, List.map_cons]
      intro hv
      exact List.mem_cons_of_mem _ (runMigsE_failedAt_mem f rest ap v hv)
    · simp only [if_neg h]
      by_cases hf : f m
      · simp only [if_pos hf]
        intro hv
        obtain rfl : m.version = v := Option.some.inj hv
        simp
      · simp only [if_neg hf, List.map_cons]
        intro hv
        exact List.mem_cons_of_mem _
          (runMigsE_failedAt_mem f rest (ap ++ [m.version]) v hv)

theorem runMigsE_executed_le :
    ∀ (f : Migration → Bool) (l : List Migration) (ap : List Nat) (v : Nat),
      l.Pairwise (fun a b => a.version ≤ b.version) →
      (runMigsE f l ap).failedAt = some v →
      ∀ w ∈ (runMigsE f l ap).executed, w ≤ v
  | f, [], ap, v => by simp [runMigsE]
  | f, m :: rest, ap, v => by
    intro hp h
    rcases List.pairwise_cons.mp hp with ⟨hm, hrest⟩
    rw [runMigsE] at h ⊢
    by_cases hmem : m.version ∈ ap
    · simp only [if_pos hmem] at h ⊢
      exact runMigsE_executed_le f rest ap v hrest h
    · simp only [if_neg hmem] at h ⊢
      by_cases hf : f m
      · simp only [if_pos hf] at h ⊢
        simp
      · simp only [if_neg hf] at h ⊢
        intro w hw
        rcases List.mem_cons.mp hw with rfl | hw
        · have hv := runMigsE_failedAt_mem f rest (ap ++ [m.version]) v h
          rcases List.mem_map.mp hv with ⟨x, hx, hxv⟩
          exact hxv ▸ hm x hx
        · exact runMigsE_executed_le f rest (ap ++ [m.version]) v hrest h w hw

/-! ## Claim C4 -/

/-- C4: a migration whose statement fails during first use is not recorded as
applied (execute-and-record are one unit), no migration at a later position
in the sorted sequence has executed, and the failure is fatal: the manager
lands in the terminal Failed state, every subsequent `getHandle()` observes
the same failed promise immediately, and the open is never retried. -/
theorem c4_migration_failure_fatal (fails : Migration → Bool)
    (migs : List Migration) (v : Nat)
    (h : (initClient fails migs).2.failedAt = some v) :
    v ∉ (initClient fails migs).2.applied ∧
    v ∉ (initClient fails migs).2.executed ∧
    (∀ w ∈ (initClient fails migs).2.executed, w ≤ v) ∧
    (initClient fails migs).1.state = .failed 0 ∧
    (initClient fails migs).1.getHandle = ((initClient fails migs).1, 0) ∧
    (initClient fails migs).1.openCount = 1 := by
  have hv : (applyMigsE fails [] migs).failedAt = some v := h
  have hna := runMigsE_failed_not_applied fails (sortByVersion migs) [] v hv
  have happ := runMigsE_applied fails (sortByVersion migs) []
  have hmgr : (initClient fails migs).1 = ⟨.failed 0, 1, 1⟩ := by
    show (Mgr.fresh.getHandle).1.resolveInit (applyMigsE fails [] migs).failedAt.isNone = _
    rw [hv]
    rfl
  refine ⟨hna, ?_, ?_, ?_, ?_, ?_⟩
  · intro hex
    have hex2 : v ∈ (runMigsE fails (sortByVersion migs) []).executed := hex
    exact hna (by rw [happ]; simpa using hex2)
  · exact runMigsE_executed_le fails (sortByVersion migs) [] v
      (pairwise_sortByVersion migs) hv
  · rw [hmgr]
  · rw [hmgr]; rfl
  · rw [hmgr]

/-- Witness for C4: version 2 fails among [1, 2, 3]; the manager is Failed
and version 2 is not recorded. -/
theorem c4_migration_failure_fatal_witness :
    (initClient (fun m => m.version == 2) [⟨1, "a"⟩, ⟨2, "b"⟩, ⟨3, "c"⟩]).1.state =
      .failed 0 ∧
    2 ∉ (initClient (fun m => m.version == 2) [⟨1, "a"⟩, ⟨2, "b"⟩, ⟨3, "c"⟩]).2.applied := by
  have h := c4_migration_failure_fatal (fun m => m.version == 2)
    [⟨1, "a"⟩, ⟨2, "b"⟩, ⟨3, "c"⟩] 2 (by decide)
  exact ⟨h.2.2.2.1, h.1⟩

/-! ## Claim C5 -/

theorem find?_eq_head_filter {α : Type} (p : α → Bool) (l : List α) :
    l.find? p = (l.filter p).head? := by
  induction l with
  | nil => rfl
  | cons x xs ih =>
    rw [List.filter_cons]
    by_cases h : p x
    · rw [List.find?_cons_of_pos _ h, if_pos h]
      rfl
    · rw [List.find?_cons_of_neg _ h, if_neg h, ih]

/-- C5: a mutation whose value map violates the schema produces exactly one
Validation error locally: no SQL is sent, the error carries the full issues
list with one entry per violated field (path = field name, message =
constraint description, collected rather than fail-fast), and its
representative field is the first violated field; the three-violation test
row yields issues on name, email and age. -/
theorem c5_validation_collects_all (schema : List FieldSpec) (table : String)
    (row : List (String × SQLValue))
    (h : validateRow schema row ≠ []) :
    (∃ f : FieldSpec,
      schema.find? (fun f => !(f.check (lookupField row f.name))) = some f ∧
      insertValues schema table row =
        .error (.validation f.name (validateRow schema row)) ∧
      (validateRow schema row).head? = some ⟨f.name, f.message⟩) ∧
    sentCalls (insertValues schema table row) = [] ∧
    (∀ f ∈ schema, f.check (lookupField row f.name) = false →
      (⟨f.name, f.message⟩ : Issue) ∈ validateRow schema row) ∧
    (validateRow schema row).length =
      (schema.filter fun f => !(f.check (lookupField row f.name))).length ∧
    (validateRow usersSchema badRow).map Issue.path = ["name", "email", "age"] := by
  rcases hf : schema.filter (fun f => !(f.check (lookupField row f.name))) with _ | ⟨f, fs⟩
  · refine absurd ?_ h
    unfold validateRow
    rw [hf]
    rfl
  · have hval : validateRow schema row =
        ⟨f.name, f.message⟩ :: fs.map fun g => ⟨g.name, g.message⟩ := by
      unfold validateRow
      rw [hf, List.map_cons]
    have hins : insertValues schema table row =
        .error (.validation f.name (validateRow schema row)) := by
      rw [insertValues, hval]
    refine ⟨⟨f, ?_, hins, ?_⟩, ?_, ?_, ?_, by decide⟩
    · rw [find?_eq_head_filter _ schema, hf]
      rfl
    · rw [hval]
      rfl
    · rw [hins]
      rfl
    · intro g hg hgc
      simp only [validateRow, List.mem_map, List.mem_filter]
      exact ⟨g, ⟨hg, by simp [hgc]⟩, rfl⟩
    · simp [validateRow]

/-- Witness for C5: the test row with three simultaneous violations sends no
SQL and reports all three fields. -/
theorem c5_validation_collects_all_witness :
    sentCalls (insertValues usersSchema "users" badRow) = [] ∧
    (validateRow usersSchema badRow).map Issue.path = ["name", "email", "age"] := by
  have h := c5_validation_collects_all usersSchema "users" badRow (by decide)
  exact ⟨h.2.1, h.2.2.2.2⟩

/-! ## Claims C6 and C7 -/
/-- C6: the classifier produces exactly one typed error per engine failure:
a Constraint error carrying the matched category (one of UNIQUE, FOREIGN KEY,
NOT NULL, actually contained in the message) when the message matches a known
pattern, and otherwise the SQL fallback carrying the statement text and the
message verbatim. -/
theorem c6_classifier (sqlText msg : String) :
    (matchesConstraint msg = false →
      classifyEngineError sqlText msg = .sql sqlText msg) ∧
    (matchesConstraint msg = true →
      ∃ cat, classifyEngineError sqlText msg = .constraint cat msg ∧
        cat ∈ constraintPatterns ∧ containsSub msg cat = true) ∧
    (∀ cat m, classifyEngineError sqlText msg = .constraint cat m →
      containsSub msg cat = true ∧ m = msg) ∧
    (∀ s m, classifyEngineError sqlText msg = .sql s m →
      s = sqlText ∧ m = msg) := by
  by_cases h1 : containsSub msg "UNIQUE" = true
  · simp only [classifyEngineError, matchesConstraint, h1, if_true, Bool.true_or]
    refine ⟨by simp, fun _ => ⟨"UNIQUE", rfl, by simp [constraintPatterns], h1⟩, ?_, ?_⟩
    · intro cat m he
      rw [TypedError.constraint.injEq] at he
      exact ⟨he.1 ▸ h1, he.2.symm⟩
    · intro s m he
      exact absurd he (by simp)
  · by_cases h2 : containsSub msg "FOREIGN KEY" = true
    · simp only [classifyEngineError, matchesConstraint, h1, h2, if_true, if_false,
        Bool.false_or, Bool.true_or, Bool.or_true]
      refine ⟨by simp, fun _ => ⟨"FOREIGN KEY", by simp [h1, h2], by simp [constraintPatterns], h2⟩, ?_, ?_⟩
      · intro cat m he
        rw [if_neg (by simp), TypedError.constraint.injEq] at he
        exact ⟨he.1 ▸ h2, he.2.symm⟩
      · intro s m he
        rw [if_neg (by simp)] at he
        exact absurd he (by simp)
    · by_cases h3 : containsSub msg "NOT NULL" = true
      · simp only [Bool.not_eq_true] at h1 h2
        have hc : classifyEngineError sqlText msg = .constraint "NOT NULL" msg := by
          unfold classifyEngineError
          rw [if_neg (by simp [h1]), if_neg (by simp [h2]), if_pos h3]
        refine ⟨?_, fun _ => ⟨"NOT NULL", hc, by simp [constraintPatterns], h3⟩, ?_, ?_⟩
        · intro hm
          rw [matchesConstraint, h1, h2, h3] at hm
          simp at hm
        · intro cat m he
          rw [hc, TypedError.constraint.injEq] at he
          exact ⟨he.1 ▸ h3, he.2.symm⟩
        · intro s m he
          rw [hc] at he
          exact absurd he (by simp)
      · simp only [Bool.not_eq_true] at h1 h2 h3
        have hc : classifyEngineError sqlText msg = .sql sqlText msg := by
          unfold classifyEngineError
          rw [if_neg (by simp [h1]), if_neg (by simp [h2]), if_neg (by simp [h3])]
        refine ⟨fun _ => hc, ?_, ?_, ?_⟩
        · intro hm
          rw [matchesConstraint, h1, h2, h3] at hm
          simp at hm
        · intro cat m he
          rw [hc] at he
          exact absurd he (by simp)
        · intro s m he
          rw [hc, TypedError.sql.injEq] at he
          exact ⟨he.1.symm, he.2.symm⟩

/-- Witness for C6: a syntax error classifies as the SQL fallback and a
UNIQUE violation classifies as a Constraint error. -/
theorem c6_classifier_witness :
    classifyEngineError "INVALID SQL SYNTAX" "syntax error" =
      .sql "INVALID SQL SYNTAX" "syntax error" ∧
    (∃ cat, classifyEngineError "I" "UNIQUE constraint failed: users.email" =
      .constraint cat "UNIQUE constraint failed: users.email" ∧
      cat ∈ constraintPatterns ∧
      containsSub "UNIQUE constraint failed: users.email" cat = true) := by
  have h1 := c6_classifier "INVALID SQL SYNTAX" "syntax error"
  have h2 := c6_classifier "I" "UNIQUE constraint failed: users.email"
  exact ⟨h1.1 (by decide), h2.2.1 (by decide)⟩

/-- C7: every typed error the classifier or the validator can produce —
Validation and Constraint errors included — passes the base identity check
for the general SQLite error kind (and for the built-in Error), so callers
can catch broadly or narrowly. -/
theorem c7_errors_share_base_identity (e : TypedError) :
    instanceOfB e.errClass .sqliteError = true ∧
    instanceOfB e.errClass .jsError = true ∧
    instanceOfB (TypedError.errClass (.validation "f" [])) .sqliteError = true ∧
    instanceOfB (TypedError.errClass (.constraint "UNIQUE" "m")) .sqliteError = true := by
  cases e <;> exact ⟨rfl, rfl, rfl, rfl⟩

/-! ## Claim C8 -/
theorem mem_registeredFor (b : Bus) (t : String) (cb : Nat) :
    cb ∈ b.registeredFor t ↔ (t, cb) ∈ b.subs := by
  simp only [Bus.registeredFor, List.mem_map, List.mem_filter]
  constructor
  · rintro ⟨s, ⟨hs, ht⟩, hcb⟩
    have ht2 : s.1 = t := by simpa using ht
    have : s = (t, cb) := by
      cases s
      simp_all
    exact this ▸ hs
  · intro h
    exact ⟨(t, cb), ⟨h, by simp⟩, rfl⟩

theorem notifyGo_sublist (beh : Nat → CbEffect) (t : String) :
    ∀ (pend : List Nat) (b : Bus), (notifyGo beh t pend b).1.Sublist pend
  | [], b => by simp [notifyGo]
  | cb :: rest, b => by
    rw [notifyGo]
    by_cases h : (t, cb) ∈ b.subs
    · simp only [if_pos h]
      exact List.Sublist.cons₂ _ (notifyGo_sublist beh t rest _)
    · simp only [if_neg h]
      exact List.Sublist.cons _ (notifyGo_sublist beh t rest b)

theorem notifyGo_all (beh : Nat → CbEffect) (t : String)
    (hbeh : ∀ i, (beh i).unsubs = []) :
    ∀ (pend : List Nat) (b : Bus), (∀ cb ∈ pend, (t, cb) ∈ b.subs) →
      notifyGo beh t pend b = (pend, b)
  | [], b, _ => rfl
  | cb :: rest, b, h => by
    rw [notifyGo]
    simp only [if_pos (h cb (by simp))]
    have hap : applyUnsubs b (beh cb).unsubs = b := by
      rw [hbeh cb]
      rfl
    rw [hap, notifyGo_all beh t hbeh rest b fun x hx => h x (by simp [hx])]

theorem notifyGo_congr (beh behB : Nat → CbEffect) (t : String)
    (h : ∀ i, (beh i).unsubs = (behB i).unsubs) :
    ∀ (pend : List Nat) (b : Bus),
      notifyGo beh t pend b = notifyGo behB t pend b
  | [], b => rfl
  | cb :: rest, b => by
    rw [notifyGo, notifyGo]
    by_cases hc : (t, cb) ∈ b.subs
    · simp only [if_pos hc, h cb]
      rw [notifyGo_congr beh behB t h rest _]
    · simp only [if_neg hc]
      exact notifyGo_congr beh behB t h rest b

theorem unsubscribe_not_mem (b : Bus) (t : String) (cb : Nat) :
    (t, cb) ∉ (b.unsubscribe t cb).subs := by
  simp [Bus.unsubscribe, List.mem_filter]

/-- C8: `notify(t)` invokes exactly the callbacks currently registered for
`t`, in registration order (all of them when nothing unsubscribes
mid-dispatch, and always an order-preserving subset of them), never a
callback registered under another table; the invoked set is unchanged when
only the throws flags of the callbacks change (each invocation is isolated);
a callback unsubscribed beforehand is never invoked; and in the demo pass,
callback 1 throwing and unsubscribing callback 2 mid-pass still completes
the pass, skips 2 from then on, and leaves other tables untouched. -/
theorem c8_notify_exact_isolated (b : Bus) (t : String)
    (beh behB : Nat → CbEffect) (cb : Nat)
    (hcongr : ∀ i, (beh i).unsubs = (behB i).unsubs) :
    ((∀ i, (beh i).unsubs = []) → b.notify beh t = (b.registeredFor t, b)) ∧
    (b.notify beh t).1.Sublist (b.registeredFor t) ∧
    (∀ x ∈ (b.notify beh t).1, (t, x) ∈ b.subs) ∧
    ((t, cb) ∉ b.subs → cb ∉ (b.notify beh t).1) ∧
    cb ∉ ((b.unsubscribe t cb).notify beh t).1 ∧
    b.notify beh t = b.notify behB t ∧
    (demoBus.notify demoBeh "todos").1 = [1] ∧
    (demoBus.notify demoBeh "todos").2 = ⟨[("todos", 1), ("other", 3)]⟩ ∧
    (((demoBus.notify demoBeh "todos").2).notify demoBeh "todos").1 = [1] ∧
    (demoBus.notify demoBeh "other").1 = [3] := by
  have hsub : ∀ (bb : Bus), (bb.notify beh t).1.Sublist (bb.registeredFor t) :=
    fun bb => notifyGo_sublist beh t _ bb
  have hmem : ∀ (bb : Bus), ∀ x ∈ (bb.notify beh t).1, (t, x) ∈ bb.subs :=
    fun bb x hx => (mem_registeredFor bb t x).mp ((hsub bb).mem hx)
  refine ⟨?_, hsub b, hmem b, ?_, ?_, ?_, by decide, by decide, by decide, by decide⟩
  · intro hbeh
    exact notifyGo_all beh t hbeh _ b fun x hx => (mem_registeredFor b t x).mp hx
  · intro hns hin
    exact hns (hmem b cb hin)
  · intro hin
    exact unsubscribe_not_mem b t cb (hmem _ cb hin)
  · exact notifyGo_congr beh behB t hcongr _ b

/-- Witness for C8 on the demo bus and behaviors. -/
theorem c8_notify_exact_isolated_witness :
    (demoBus.notify demoBeh "todos").1 = [1] ∧
    (demoBus.notify demoBeh "other").1 = [3] ∧
    2 ∉ ((demoBus.unsubscribe "todos" 2).notify demoBeh "todos").1 := by
  have h := c8_notify_exact_isolated demoBus "todos" demoBeh demoBeh 2 (fun i => rfl)
  have h2 := c8_notify_exact_isolated demoBus "other" demoBeh demoBeh 2 (fun i => rfl)
  exact ⟨h.2.2.2.2.2.2.1, h2.2.2.2.2.2.2.2.2.2, h.2.2.2.2.1⟩

/-! ## Claim C10 -/

/-- C10: `useSQLiteClientAsync()` throws Error("SQLite plugin not installed")
when no provider supplied a value under the SQLITE_CLIENT_KEY injection key,
and otherwise returns exactly the injected client promise, unchanged. -/
theorem c10_useSQLiteClientAsync {α : Type} (env : String → Option α) :
    (env SQLITE_CLIENT_KEY = none →
      useSQLiteClientAsync env = .error "SQLite plugin not installed") ∧
    (∀ p, env SQLITE_CLIENT_KEY = some p → useSQLiteClientAsync env = .ok p) := by
  constructor
  · intro h
    unfold useSQLiteClientAsync inject
    rw [h]
  · intro p h
    unfold useSQLiteClientAsync inject
    rw [h]

/-- Witness for C10: an empty environment throws, a providing environment
returns the injected promise. -/
theorem c10_useSQLiteClientAsync_witness :
    useSQLiteClientAsync (fun _ => (none : Option Nat)) =
      .error "SQLite plugin not installed" ∧
    useSQLiteClientAsync (fun _ => some 5) = .ok 5 :=
  ⟨(c10_useSQLiteClientAsync (fun _ => none)).1 rfl,
   (c10_useSQLiteClientAsync (fun _ => some 5)).2 5 rfl⟩

end SqliteLib
